import Mathlib

/-!
Shallow embedding of the Optimus agent core, translated from the Python
sources: the planner (`core/planner.py`), the memory store (`core/memory.py`),
the skill registry (`skills/__init__.py`) and the agent loop
(`core/agent_loop.py`).

Python values that flow through plans are modelled by the inductive `Json`
(a JSON-like dynamic value); Python exceptions are modelled with
`Except String`, carrying the exception's message.  The external language
model call together with `json.loads` (the body of the planner's `try`
block that can raise) is modelled as an oracle argument of type
`Except String (List Json)`: `.error e` is any exception raised while
calling the model, extracting, or parsing the response, `.ok raw` is the
parsed JSON array of candidate steps.  Timestamps (`datetime.now()`) are
passed in explicitly; file persistence (`Memory._save`, which catches its
own exceptions) is not observable through the claims and is not modelled.
-/

/-- A JSON-like dynamic (Python) value. -/
inductive Json where
  | str : String → Json
  | num : Int → Json
  | bool : Bool → Json
  | null : Json
  | arr : List Json → Json
  | obj : List (String × Json) → Json

/-- Dictionary lookup: `d[k]` on the field list of an object (first match;
Python dict keys are unique). `none` models a missing key. -/
def objGet : List (String × Json) → String → Option Json
  | [], _ => none
  | (k, v) :: rest, key => if k = key then some v else objGet rest key

/-- Python `d.get(k, default)`. -/
def pyGetD (fs : List (String × Json)) (k : String) (d : Json) : Json :=
  (objGet fs k).getD d

/-- Python `d.get(k)` (default `None`). -/
def pyGet (fs : List (String × Json)) (k : String) : Json :=
  pyGetD fs k Json.null

/-- Python `d[k] = v`: overwrite the value if the key is present, else append
the new key at the end (dict insertion order). -/
def objSet (fs : List (String × Json)) (k : String) (v : Json) : List (String × Json) :=
  if (fs.map Prod.fst).contains k then
    fs.map (fun p => if p.1 = k then (k, v) else p)
  else fs ++ [(k, v)]

/-- Python truthiness of a JSON-like value (`if not x`). -/
def truthy : Json → Bool
  | .str s => !s.isEmpty
  | .num n => n != 0
  | .bool b => b
  | .null => false
  | .arr xs => !xs.isEmpty
  | .obj fs => !fs.isEmpty

mutual

/-- Python `repr` of a JSON-like value (element rendering inside
containers); string escaping inside `repr` of a string is not modelled. -/
def pyRepr : Json → String
  | .str s => "'" ++ s ++ "'"
  | .num n => toString n
  | .bool true => "True"
  | .bool false => "False"
  | .null => "None"
  | .arr xs => "[" ++ String.intercalate ", " (pyReprList xs) ++ "]"
  | .obj fs => "\x7b" ++ String.intercalate ", " (pyReprFields fs) ++ "\x7d"

def pyReprList : List Json → List String
  | [] => []
  | x :: xs => pyRepr x :: pyReprList xs

def pyReprFields : List (String × Json) → List String
  | [] => []
  | (k, v) :: fs => ("'" ++ k ++ "': " ++ pyRepr v) :: pyReprFields fs

end

/-- Python `str` of a JSON-like value, as used by f-string interpolation. -/
def pyStr : Json → String
  | .str s => s
  | j => pyRepr j

/-- Test that `pat` is a leading block of `text` (character lists). -/
def charsStart : List Char → List Char → Bool
  | [], _ => true
  | _ :: _, [] => false
  | p :: ps, c :: cs => p == c && charsStart ps cs

/-- Test that `pat` occurs contiguously somewhere in `text` (character lists). -/
def charsHave (pat : List Char) : List Char → Bool
  | [] => charsStart pat []
  | c :: cs => charsStart pat (c :: cs) || charsHave pat cs

/-- Python substring test `pat in s`. -/
def strContains (s pat : String) : Bool :=
  charsHave pat.toList s.toList

/-- Python `s.lower()`: lowercase character by character. -/
def strLower (s : String) : String :=
  String.mk (s.toList.map Char.toLower)

/-- Python string membership in a list of strings (`x in skills`): a
JSON-like value equals a Python `str` only when it is that string. -/
def jsonInSkills (j : Json) (skills : List String) : Bool :=
  match j with
  | .str s => skills.contains s
  | _ => false

/-! ## Planner (`core/planner.py`) -/

/-- Source `_validate_steps(steps, available_skills)`: drop entries that are not
dicts, entries whose `action` is missing or falsy, and entries whose
`action` is not a registered skill name; coerce a missing or non-dict
`params` field to `\x7b\x7d`; keep the rest in order. -/
def validate_steps : List Json → List String → List Json
  | [], _ => []
  | step :: rest, skills =>
    match step with
    | Json.obj fs =>
      let action := pyGet fs "action"
      if !truthy action then validate_steps rest skills
      else if !jsonInSkills action skills then validate_steps rest skills
      else
        let fs' :=
          match objGet fs "params" with
          | some (Json.obj _) => fs
          | some _ => objSet fs "params" (Json.obj [])
          | none => objSet fs "params" (Json.obj [])
        Json.obj fs' :: validate_steps rest skills
    | _ => validate_steps rest skills

/-- Source `_get_fallback_plan(goal)`: two steps when the lowered goal contains
`"patch"` or `"improve"`, otherwise a single `generate_task_code` step with
the goal as its `task` parameter. -/
def get_fallback_plan (goal : String) : List Json :=
  if strContains (strLower goal) "patch" || strContains (strLower goal) "improve" then
    [Json.obj [("action", Json.str "generate_task_code"),
               ("params", Json.obj [("task", Json.str goal)])],
     Json.obj [("action", Json.str "trace_variable_flow"),
               ("params", Json.obj [("file", Json.str "patch_engine.py")])]]
  else
    [Json.obj [("action", Json.str "generate_task_code"),
               ("params", Json.obj [("task", Json.str goal)])]]

/-- Source `plan_steps(goal, prior_context)`: on any exception from the model call
or response extraction/parsing (the `outcome` oracle), return the fallback
plan; otherwise validate the parsed candidate steps.  `prior` only feeds the
prompt, hence only the oracle. -/
def plan_steps (goal : String) (prior : String) (skills : List String)
    (outcome : Except String (List Json)) : List Json :=
  match outcome with
  | .ok raw => validate_steps raw skills
  | .error _ => get_fallback_plan goal

/-- Claim-side predicate (spec wording): a kept candidate step is a
structured object whose `action` field is a non-empty string naming a
currently registered skill. -/
def step_keeps (skills : List String) (j : Json) : Bool :=
  match j with
  | .obj fs =>
    match pyGet fs "action" with
    | .str s => !s.isEmpty && skills.contains s
    | _ => false
  | _ => false

/-- Claim-side transformation (spec wording): coerce a missing or
non-object `params` field of a kept entry to an empty mapping. -/
def coerce_params : Json → Json
  | Json.obj fs =>
    match objGet fs "params" with
    | some (Json.obj _) => Json.obj fs
    | some _ => Json.obj (objSet fs "params" (Json.obj []))
    | none => Json.obj (objSet fs "params" (Json.obj []))
  | j => j

/-! ## Memory store (`core/memory.py`) -/

/-- A stored memory record: `\x7b"step": step, "result": result,
"timestamp": timestamp\x7d`.  `step` is typed as a dict
(`step: Dict[str, Any]` in the source). -/
structure Entry where
  step : List (String × Json)
  result : String
  timestamp : String

/-- Source `Memory.data`: a dict from goal string to the ordered list of entries,
as an insertion-ordered association list with unique keys. -/
abbrev MemData := List (String × List Entry)

/-- Dict lookup on the memory mapping. -/
def lookupGoal : MemData → String → Option (List Entry)
  | [], _ => none
  | (k, v) :: rest, g => if k = g then some v else lookupGoal rest g

namespace Memory

/-- Source `Memory.store(goal, step, result)`: append an entry (with the supplied
timestamp) to the goal's bucket, creating the bucket at the end of the dict
if absent. -/
def store : MemData → String → List (String × Json) → String → String → MemData
  | [], g, st, r, ts => [(g, [⟨st, r, ts⟩])]
  | (k, v) :: rest, g, st, r, ts =>
    if k = g then (k, v ++ [⟨st, r, ts⟩]) :: rest
    else (k, v) :: store rest g st r ts

/-- Source `Memory.retrieve(goal)`: `self.data.get(goal, [])`. -/
def retrieve (d : MemData) (g : String) : List Entry :=
  (lookupGoal d g).getD []

/-- Source `Memory.clear_goal(goal)`: delete the goal's bucket if present. -/
def clear_goal : MemData → String → MemData
  | [], _ => []
  | (k, v) :: rest, g =>
    if k = g then rest else (k, v) :: clear_goal rest g

end Memory

/-- Python list slicing `l[k:]` (for an `int` slice start `k`): negative
starts count from the end, clamped to the list. -/
def pySliceFrom (l : List Entry) (k : Int) : List Entry :=
  let n : Int := l.length
  let start : Int := if k < 0 then max 0 (n + k) else min n k
  l.drop start.toNat

/-- The first `n` characters of a string, Python `s[:n]` for `n ≥ 0`. -/
def takeChars (s : String) (n : Nat) : String :=
  String.mk (s.toList.take n)

/-- One line of the recent-context digest:
`f"- \x7bstep_desc\x7d: \x7bresult_preview\x7d"`, where `step_desc` is
`entry["step"].get("action", "unknown")` and `result_preview` truncates a
result longer than 200 characters to its first 200 characters plus `"..."`. -/
def formatEntryLine (e : Entry) : String :=
  let step_desc : String :=
    match objGet e.step "action" with
    | some j => pyStr j
    | none => "unknown"
  let result_preview : String :=
    if e.result.length > 200 then takeChars e.result 200 ++ "..." else e.result
  "- " ++ step_desc ++ ": " ++ result_preview

namespace Memory

/-- Source `Memory.get_recent_context(goal, max_entries=5)`: the sentinel when the
goal's bucket is empty, otherwise one digest line per entry of
`entries[-max_entries:]`. -/
def get_recent_context (d : MemData) (g : String) (max_entries : Int) : String :=
  let entries := retrieve d g
  if entries.isEmpty then "No prior context available."
  else
    let recent := pySliceFrom entries (-max_entries)
    String.intercalate "\n" (recent.map formatEntryLine)

end Memory

/-- Claim-side selection (spec wording): the last `m` entries (the tail of
the sequence; all of them when `m` exceeds the length). -/
def tailEntries (es : List Entry) (m : Nat) : List Entry :=
  es.drop (es.length - m)

/-! ## Skill registry (`skills/__init__.py`) and agent loop (`core/agent_loop.py`) -/

/-- A registered capability: called with the step's `params` (expanded as
keyword arguments), it returns the stringified result, or raises
(`.error` carries `str(e)`). -/
abbrev Skill := Json → Except String String

/-- Source `SkillRegistry.registry`: skill name → capability. -/
abbrev Registry := List (String × Skill)

/-- Dict membership/lookup of an arbitrary (JSON-like) name in the
registry: a value matches a key only when it is that string. -/
def lookupSkill : Registry → Json → Option Skill
  | [], _ => none
  | (k, f) :: rest, name =>
    match name with
    | Json.str s => if s = k then some f else lookupSkill rest name
    | _ => lookupSkill rest name

/-- Source `SkillRegistry.resolve(name)`: raise
`ValueError(f"Skill '\x7bname\x7d' not found in registry")` when the name is
not a registered key, otherwise return the registered capability. -/
def resolve (reg : Registry) (name : Json) : Except String Skill :=
  match lookupSkill reg name with
  | some f => Except.ok f
  | none => Except.error ("Skill '" ++ pyStr name ++ "' not found in registry")

/-- Source `_execute_step(goal, step)`: resolve the step's `action`, call the
capability with the step's `params`, store the stringified result in memory
and return `true`; on any exception (unresolved skill or a raising
capability) store `"Error: " ++ str(e)` instead and return `false`.  The
`skill_func is None` branch of the source has no counterpart here:
`resolve` either raises or returns the registered capability, never a
`None`-like value. -/
def execute_step (reg : Registry) (mem : MemData) (goal : String)
    (fs : List (String × Json)) (ts : String) : Bool × MemData :=
  let action := pyGet fs "action"
  let params := pyGetD fs "params" (Json.obj [])
  match resolve reg action with
  | Except.error e => (false, Memory.store mem goal fs ("Error: " ++ e) ts)
  | Except.ok f =>
    match f params with
    | Except.ok result => (true, Memory.store mem goal fs result ts)
    | Except.error e => (false, Memory.store mem goal fs ("Error: " ++ e) ts)

/-- The step-execution loop of `run_agent` (1-indexed `enumerate`): break
once the index exceeds `max_iterations`; count successes; thread memory.
A plan element that is not a dict would raise `TypeError` at
`step['action']` — modelled as `.error` carrying the memory state at that
point (caught by `run_agent`'s top-level handler). -/
def execSteps (reg : Registry) (goal : String) (clock : Nat → String)
    (max_iterations : Nat) :
    List Json → Nat → Nat → MemData → Except MemData (Nat × MemData)
  | [], _, cnt, mem => Except.ok (cnt, mem)
  | step :: rest, i, cnt, mem =>
    if i > max_iterations then Except.ok (cnt, mem)
    else
      match step with
      | Json.obj fs =>
        let r := execute_step reg mem goal fs (clock i)
        execSteps reg goal clock max_iterations rest (i + 1)
          (cnt + if r.1 then 1 else 0) r.2
      | _ => Except.error mem

/-- The plan `run_agent` obtains: `plan_steps(goal, prior_context)` with the
prior context recalled from memory (`max_entries` defaults to 5) and the
skill names of the registry. -/
def agent_plan (reg : Registry) (mem : MemData) (goal : String)
    (outcome : Except String (List Json)) : List Json :=
  plan_steps goal (Memory.get_recent_context mem goal 5) (reg.map Prod.fst) outcome

/-- Source `run_agent(goal, max_iterations=10)`: recall context, plan, fail fast on
an empty plan, execute the steps under the iteration cap, and succeed iff
`success_count / len(plan) > 0.5`.  The ratio test is computed exactly as
the rational `mkRat success_count len(plan)` compared with `mkRat 1 2`
(`success_count / len(plan)` and `0.5` of the source); the top-level
`except` converts an escaped exception into `false`. -/
def run_agent (reg : Registry) (mem : MemData) (goal : String)
    (outcome : Except String (List Json)) (clock : Nat → String)
    (max_iterations : Nat) : Bool × MemData :=
  let plan := agent_plan reg mem goal outcome
  if plan.isEmpty then (false, mem)
  else
    match execSteps reg goal clock max_iterations plan 1 0 mem with
    | Except.error mem' => (false, mem')
    | Except.ok (cnt, mem') =>
      (decide (mkRat 1 2 < mkRat (cnt : Int) plan.length), mem')

/-! ## Memory store: theorems -/

theorem retrieve_store_self (d : MemData) (g : String)
    (st : List (String × Json)) (r ts : String) :
    Memory.retrieve (Memory.store d g st r ts) g
      = Memory.retrieve d g ++ [⟨st, r, ts⟩] := by
  induction d with
  | nil => simp [Memory.store, Memory.retrieve, lookupGoal]
  | cons p rest ih =>
    obtain ⟨k, v⟩ := p
    by_cases h : k = g
    · subst h
      simp [Memory.store, Memory.retrieve, lookupGoal]
    · simpa [Memory.store, Memory.retrieve, lookupGoal, h] using ih

theorem retrieve_store_other (d : MemData) (g g' : String)
    (st : List (String × Json)) (r ts : String) (h : g' ≠ g) :
    Memory.retrieve (Memory.store d g st r ts) g' = Memory.retrieve d g' := by
  induction d with
  | nil =>
    simp [Memory.store, Memory.retrieve, lookupGoal, if_neg (Ne.symm h)]
  | cons p rest ih =>
    obtain ⟨k, v⟩ := p
    by_cases hk : k = g
    · subst hk
      simp [Memory.store, Memory.retrieve, lookupGoal, if_neg (Ne.symm h)]
    · by_cases hk' : k = g'
      · subst hk'
        simp [Memory.store, Memory.retrieve, lookupGoal, hk]
      · simpa [Memory.store, Memory.retrieve, lookupGoal, hk, hk'] using ih

/-- C4: after `store(goal, step, result)`, `retrieve(goal)` ends with an
entry holding exactly that step and result; `store` only appends — the
previous entries of the stored goal stay in front unchanged, and every
other goal's entries are untouched. -/
theorem claim_C4_store_appends (d : MemData) (g : String)
    (st : List (String × Json)) (r ts : String) :
    Memory.retrieve (Memory.store d g st r ts) g
        = Memory.retrieve d g ++ [⟨st, r, ts⟩]
    ∧ (Memory.retrieve (Memory.store d g st r ts) g).getLast?
        = some ⟨st, r, ts⟩
    ∧ ∀ g', g' ≠ g →
        Memory.retrieve (Memory.store d g st r ts) g' = Memory.retrieve d g' := by
  refine ⟨retrieve_store_self d g st r ts, ?_, ?_⟩
  · rw [retrieve_store_self d g st r ts]
    exact List.getLast?_concat _
  · intro g' h
    exact retrieve_store_other d g g' st r ts h

/-- Witness for C4 at a store holding one prior entry for `"g"` and one
entry for another goal. -/
theorem claim_C4_store_appends_witness :
    Memory.retrieve
        (Memory.store [("g", [⟨[], "old", "t0"⟩]), ("h", [⟨[], "x", "t0"⟩])]
          "g" [("action", Json.str "a")] "new" "t1") "g"
      = [⟨[], "old", "t0"⟩, ⟨[("action", Json.str "a")], "new", "t1"⟩]
    ∧ Memory.retrieve
        (Memory.store [("g", [⟨[], "old", "t0"⟩]), ("h", [⟨[], "x", "t0"⟩])]
          "g" [("action", Json.str "a")] "new" "t1") "h"
      = Memory.retrieve [("g", [⟨[], "old", "t0"⟩]), ("h", [⟨[], "x", "t0"⟩])] "h" :=
  ⟨(claim_C4_store_appends [("g", [⟨[], "old", "t0"⟩]), ("h", [⟨[], "x", "t0"⟩])]
      "g" [("action", Json.str "a")] "new" "t1").1,
   (claim_C4_store_appends [("g", [⟨[], "old", "t0"⟩]), ("h", [⟨[], "x", "t0"⟩])]
      "g" [("action", Json.str "a")] "new" "t1").2.2 "h" (by decide)⟩

theorem lookupGoal_eq_none_iff (d : MemData) (g : String) :
    lookupGoal d g = none ↔ g ∉ d.map Prod.fst := by
  induction d with
  | nil => simp [lookupGoal]
  | cons p rest ih =>
    obtain ⟨k, v⟩ := p
    by_cases h : k = g
    · subst h
      simp [lookupGoal]
    · simp only [lookupGoal, if_neg h, List.map_cons, List.mem_cons]
      rw [ih]
      push_neg
      constructor
      · intro hg
        exact ⟨fun h1 => h h1.symm, hg⟩
      · exact And.right

theorem clear_goal_of_absent (d : MemData) (g : String)
    (h : lookupGoal d g = none) : Memory.clear_goal d g = d := by
  induction d with
  | nil => rfl
  | cons p rest ih =>
    obtain ⟨k, v⟩ := p
    by_cases hk : k = g
    · subst hk
      simp [lookupGoal] at h
    · simp only [lookupGoal, if_neg hk] at h
      simp [Memory.clear_goal, hk, ih h]

theorem lookupGoal_clear_self (d : MemData) (g : String)
    (hnd : (d.map Prod.fst).Nodup) :
    lookupGoal (Memory.clear_goal d g) g = none := by
  induction d with
  | nil => rfl
  | cons p rest ih =>
    obtain ⟨k, v⟩ := p
    simp only [List.map_cons, List.nodup_cons] at hnd
    by_cases hk : k = g
    · subst hk
      simp only [Memory.clear_goal, if_pos rfl]
      exact (lookupGoal_eq_none_iff rest k).2 hnd.1
    · simp [Memory.clear_goal, hk, lookupGoal, ih hnd.2]

/-- C9: clearing a goal then retrieving it yields the empty sequence;
`clear_goal` is idempotent, and on an absent goal it is a no-op leaving the
store unchanged (the `Nodup` hypothesis is the dict invariant: a Python
dict holds each key once). -/
theorem claim_C9_clear_goal (d : MemData) (g : String)
    (hnd : (d.map Prod.fst).Nodup) :
    Memory.retrieve (Memory.clear_goal d g) g = []
    ∧ Memory.clear_goal (Memory.clear_goal d g) g = Memory.clear_goal d g
    ∧ (lookupGoal d g = none → Memory.clear_goal d g = d) := by
  have hnone := lookupGoal_clear_self d g hnd
  refine ⟨?_, clear_goal_of_absent _ g hnone, clear_goal_of_absent d g⟩
  simp [Memory.retrieve, hnone]

/-- Witness for C9 at a two-goal store, clearing a present goal. -/
theorem claim_C9_clear_goal_witness :
    Memory.retrieve
        (Memory.clear_goal [("g", [⟨[], "r", "t"⟩]), ("h", [])] "g") "g" = []
    ∧ Memory.clear_goal
        (Memory.clear_goal [("g", [⟨[], "r", "t"⟩]), ("h", [])] "g") "g"
      = Memory.clear_goal [("g", [⟨[], "r", "t"⟩]), ("h", [])] "g" :=
  ⟨(claim_C9_clear_goal [("g", [⟨[], "r", "t"⟩]), ("h", [])] "g" (by decide)).1,
   (claim_C9_clear_goal [("g", [⟨[], "r", "t"⟩]), ("h", [])] "g" (by decide)).2.1⟩

theorem pySliceFrom_tail (es : List Entry) (m : Int) (hm : 1 ≤ m) :
    pySliceFrom es (-m) = tailEntries es m.toNat := by
  unfold pySliceFrom tailEntries
  have hlt : (-m) < 0 := by omega
  simp only [if_pos hlt]
  congr 1
  omega

/-- C7 counterexample: with two stored entries and `maxEntries = 0`, the
code formats every entry (`entries[-0:]` is the whole list), while the
last-`maxEntries` selection of the claim is empty. -/
theorem claim_C7_counterexample :
    Memory.get_recent_context
        [("g", [⟨[("action", Json.str "a")], "r1", "t1"⟩,
                ⟨[("action", Json.str "a")], "r2", "t2"⟩])] "g" 0
      = "- a: r1\n- a: r2"
    ∧ tailEntries
        (Memory.retrieve
          [("g", [⟨[("action", Json.str "a")], "r1", "t1"⟩,
                  ⟨[("action", Json.str "a")], "r2", "t2"⟩])] "g") 0 = []
    ∧ "- a: r1\n- a: r2" ≠ "" :=
  ⟨rfl, rfl, by decide⟩

/-- C7 (amended): `get_recent_context` returns the fixed sentinel whenever
the goal's bucket is empty or absent, and for every `maxEntries ≥ 1` a
non-empty bucket yields one `"- <action>: <result>"` line per entry of the
last `maxEntries` entries, results longer than 200 characters truncated
(the source slices `entries[-max_entries:]`, so `maxEntries = 0` would
format all entries, not none). -/
theorem claim_C7_recent_context (d : MemData) (g : String) (m : Int) :
    (Memory.retrieve d g = [] →
      Memory.get_recent_context d g m = "No prior context available.")
    ∧ (1 ≤ m →
      Memory.get_recent_context d g m =
        if (Memory.retrieve d g).isEmpty then "No prior context available."
        else String.intercalate "\n"
          ((tailEntries (Memory.retrieve d g) m.toNat).map formatEntryLine)) := by
  constructor
  · intro h
    simp [Memory.get_recent_context, h]
  · intro hm
    by_cases he : (Memory.retrieve d g).isEmpty
    · simp [Memory.get_recent_context, he]
    · simp only [Memory.get_recent_context, he, Bool.false_eq_true, if_false]
      rw [pySliceFrom_tail _ _ hm]

/-- Witness for C7: a single short entry is formatted as one line, and an
absent goal gives the sentinel. -/
theorem claim_C7_recent_context_witness :
    Memory.get_recent_context [("g", [⟨[("action", Json.str "a")], "r", "t"⟩])] "g" 5
      = "- a: r"
    ∧ Memory.get_recent_context [] "nope" 5 = "No prior context available." := by
  constructor
  · have h :=
      (claim_C7_recent_context [("g", [⟨[("action", Json.str "a")], "r", "t"⟩])]
        "g" 5).2 (by decide)
    rw [h]
    rfl
  · exact (claim_C7_recent_context [] "nope" 5).1 rfl

/-! ## Planner: theorems -/

theorem keep_cond (fs : List (String × Json)) (skills : List String) :
    step_keeps skills (Json.obj fs)
      = (truthy (pyGet fs "action") && jsonInSkills (pyGet fs "action") skills) := by
  cases h : pyGet fs "action" <;> simp [step_keeps, truthy, jsonInSkills, h]

theorem validate_steps_filter_map (steps : List Json) (skills : List String) :
    validate_steps steps skills
      = (steps.filter (step_keeps skills)).map coerce_params := by
  induction steps with
  | nil => rfl
  | cons s rest ih =>
    cases s with
    | obj fs =>
      by_cases h1 : truthy (pyGet fs "action") = true
      · by_cases h2 : jsonInSkills (pyGet fs "action") skills = true
        · have hk : step_keeps skills (Json.obj fs) = true := by
            rw [keep_cond]
            simp [h1, h2]
          cases hp : objGet fs "params" with
          | none =>
            simp [validate_steps, h1, h2, hk, hp, coerce_params,
              List.filter_cons, ih]
          | some v =>
            cases v <;>
              simp [validate_steps, h1, h2, hk, hp, coerce_params,
                List.filter_cons, ih]
        · have hk : step_keeps skills (Json.obj fs) = false := by
            rw [keep_cond]
            simp [h2]
          simp [validate_steps, h1, h2, hk, List.filter_cons, ih]
      · have hk : step_keeps skills (Json.obj fs) = false := by
          rw [keep_cond]
          simp [h1]
        simp [validate_steps, h1, hk, List.filter_cons, ih]
    | str s => simp [validate_steps, step_keeps, List.filter_cons, ih]
    | num n => simp [validate_steps, step_keeps, List.filter_cons, ih]
    | bool b => simp [validate_steps, step_keeps, List.filter_cons, ih]
    | null => simp [validate_steps, step_keeps, List.filter_cons, ih]
    | arr xs => simp [validate_steps, step_keeps, List.filter_cons, ih]

/-- C6: step validation keeps exactly the candidate entries that are
objects whose `action` is a non-empty string naming a registered skill,
in their original order, and coerces a missing or non-object `params`
field of each kept entry to an empty mapping.  In particular an array of
one valid step and one step with an unregistered action validates to
exactly the valid step. -/
theorem claim_C6_validate_steps (steps : List Json) (skills : List String) :
    validate_steps steps skills
      = (steps.filter (step_keeps skills)).map coerce_params :=
  validate_steps_filter_map steps skills

/-- C1 counterexample: the goal `"apply patch"` contains no `"improve"`
(case-insensitively), yet the fallback plan has two steps, not one — the
source also matches the keyword `"patch"`. -/
theorem claim_C1_counterexample :
    strContains (strLower "apply patch") "improve" = false
    ∧ (get_fallback_plan "apply patch").length = 2 :=
  ⟨by decide, rfl⟩

/-- C1 (amended): for every goal and any planner failure (exception while
calling the model, extracting, or parsing), `plan_steps` returns the
fallback plan; the fallback has exactly two steps when the goal contains
`"patch"` or `"improve"` case-insensitively, and for any other goal text
exactly one step, `\x7b"action": "generate_task_code", "params":
\x7b"task": goal\x7d\x7d`. -/
theorem claim_C1_fallback (goal prior : String) (skills : List String) (e : String) :
    plan_steps goal prior skills (Except.error e) = get_fallback_plan goal
    ∧ ((strContains (strLower goal) "patch" || strContains (strLower goal) "improve") = true →
        get_fallback_plan goal
          = [Json.obj [("action", Json.str "generate_task_code"),
                       ("params", Json.obj [("task", Json.str goal)])],
             Json.obj [("action", Json.str "trace_variable_flow"),
                       ("params", Json.obj [("file", Json.str "patch_engine.py")])]])
    ∧ ((strContains (strLower goal) "patch" || strContains (strLower goal) "improve") = false →
        get_fallback_plan goal
          = [Json.obj [("action", Json.str "generate_task_code"),
                       ("params", Json.obj [("task", Json.str goal)])]]) := by
  refine ⟨rfl, ?_, ?_⟩ <;> intro h <;> simp [get_fallback_plan, h]

/-- Witness for C1: a failing planner falls back; a keyword goal gets the
two-step fallback, a keyword-free goal the single default step. -/
theorem claim_C1_fallback_witness :
    plan_steps "improve x" "" [] (Except.error "boom") = get_fallback_plan "improve x"
    ∧ get_fallback_plan "hello"
        = [Json.obj [("action", Json.str "generate_task_code"),
                     ("params", Json.obj [("task", Json.str "hello")])]]
    ∧ (get_fallback_plan "improve x").length = 2 := by
  refine ⟨(claim_C1_fallback "improve x" "" [] "boom").1,
          (claim_C1_fallback "hello" "" [] "boom").2.2 (by decide), ?_⟩
  rw [(claim_C1_fallback "improve x" "" [] "boom").2.1 (by decide)]
  rfl

/-! ## Agent loop: theorems -/

theorem isEmpty_false_of_ne {α : Type} (l : List α) (h : l ≠ []) :
    l.isEmpty = false := by
  cases l with
  | nil => exact absurd rfl h
  | cons a as => rfl

theorem execSteps_take (reg : Registry) (goal : String) (clock : Nat → String)
    (m : Nat) :
    ∀ (l : List Json) (i cnt : Nat) (mem : MemData),
      execSteps reg goal clock m l i cnt mem
        = execSteps reg goal clock m (l.take (m + 1 - i)) i cnt mem := by
  intro l
  induction l with
  | nil =>
    intro i cnt mem
    rw [List.take_nil]
  | cons step rest ih =>
    intro i cnt mem
    by_cases h : i > m
    · have h0 : m + 1 - i = 0 := by omega
      rw [h0, List.take_zero]
      simp [execSteps, h]
    · have h1 : m + 1 - i = (m + 1 - (i + 1)) + 1 := by omega
      rw [h1, List.take_succ_cons]
      simp only [execSteps, if_neg h]
      cases step with
      | obj fs => exact ih (i + 1) _ _
      | str s => rfl
      | num n => rfl
      | bool b => rfl
      | null => rfl
      | arr xs => rfl

theorem execSteps_take_start (reg : Registry) (goal : String)
    (clock : Nat → String) (m : Nat) (l : List Json) (cnt : Nat) (mem : MemData) :
    execSteps reg goal clock m l 1 cnt mem
      = execSteps reg goal clock m (l.take m) 1 cnt mem := by
  rw [execSteps_take reg goal clock m l 1 cnt mem, Nat.add_sub_cancel]

/-- C2: for a non-empty plan that is fully executed (its length within the
iteration cap and every step run), `run_agent` returns `true` exactly when
the number of successful steps divided by the length of the whole plan
exceeds one half. -/
theorem claim_C2_success_majority (reg : Registry) (mem : MemData) (goal : String)
    (out : Except String (List Json)) (clock : Nat → String) (m : Nat)
    (plan : List Json) (cnt : Nat) (mem' : MemData)
    (hplan : agent_plan reg mem goal out = plan)
    (hne : plan ≠ [])
    (hfull : plan.length ≤ m)
    (hexec : execSteps reg goal clock m plan 1 0 mem = Except.ok (cnt, mem')) :
    (run_agent reg mem goal out clock m).1 = true
      ↔ ((cnt : ℚ) / (plan.length : ℚ) > 1 / 2) := by
  have hE : plan.isEmpty = false := isEmpty_false_of_ne plan hne
  simp only [run_agent, hplan, hE, Bool.false_eq_true, if_false, hexec,
    decide_eq_true_iff]
  rw [Rat.mkRat_eq_div, Rat.mkRat_eq_div]
  push_cast
  exact Iff.rfl

/-- C3: with an iteration cap `m` smaller than the plan length, the run is
fully determined by the first `m` steps — executing the whole plan under
the cap equals executing only `plan.take m` (so steps `m+1 .. n` trigger no
registry resolution and no memory write) — and hitting the cap is not a
failure by itself: the result is still the success-rate verdict over the
full plan length. -/
theorem claim_C3_iteration_cap (reg : Registry) (mem : MemData) (goal : String)
    (out : Except String (List Json)) (clock : Nat → String) (m : Nat)
    (plan : List Json)
    (hplan : agent_plan reg mem goal out = plan)
    (hm : m < plan.length) :
    (plan.take m).length = m
    ∧ execSteps reg goal clock m plan 1 0 mem
        = execSteps reg goal clock m (plan.take m) 1 0 mem
    ∧ (∀ cnt mem'',
        execSteps reg goal clock m (plan.take m) 1 0 mem = Except.ok (cnt, mem'') →
        run_agent reg mem goal out clock m
          = (decide (mkRat 1 2 < mkRat (cnt : Int) plan.length), mem'')) := by
  have hne : plan ≠ [] := by
    intro h
    rw [h] at hm
    simp at hm
  have hE : plan.isEmpty = false := isEmpty_false_of_ne plan hne
  refine ⟨?_, execSteps_take_start reg goal clock m plan 0 mem, ?_⟩
  · rw [List.length_take]
    omega
  · intro cnt mem'' hok
    simp only [run_agent, hplan, hE, Bool.false_eq_true, if_false,
      execSteps_take_start reg goal clock m plan 0 mem, hok]

/-- C8: when the planner yields an empty plan, `run_agent` returns `false`
at once, executing no step and leaving memory untouched. -/
theorem claim_C8_empty_plan (reg : Registry) (mem : MemData) (goal : String)
    (out : Except String (List Json)) (clock : Nat → String) (m : Nat)
    (h : agent_plan reg mem goal out = []) :
    run_agent reg mem goal out clock m = (false, mem) := by
  simp [run_agent, h]

/-- Witness for C8: an empty validated model plan aborts with `false` and
an unchanged (empty) memory. -/
theorem claim_C8_empty_plan_witness :
    run_agent [] [] "g" (Except.ok []) (fun _ => "t") 10 = (false, []) :=
  claim_C8_empty_plan [] [] "g" (Except.ok []) (fun _ => "t") 10 rfl

theorem coerce_obj_shape (fs : List (String × Json)) :
    ∃ fs', coerce_params (Json.obj fs) = Json.obj fs' := by
  cases hp : objGet fs "params" with
  | none =>
    exact ⟨objSet fs "params" (Json.obj []), by simp [coerce_params, hp]⟩
  | some v =>
    cases v with
    | obj l => exact ⟨fs, by simp [coerce_params, hp]⟩
    | str a =>
      exact ⟨objSet fs "params" (Json.obj []), by simp [coerce_params, hp]⟩
    | num a =>
      exact ⟨objSet fs "params" (Json.obj []), by simp [coerce_params, hp]⟩
    | bool a =>
      exact ⟨objSet fs "params" (Json.obj []), by simp [coerce_params, hp]⟩
    | null =>
      exact ⟨objSet fs "params" (Json.obj []), by simp [coerce_params, hp]⟩
    | arr a =>
      exact ⟨objSet fs "params" (Json.obj []), by simp [coerce_params, hp]⟩

theorem validate_steps_all_obj (raw : List Json) (skills : List String) :
    ∀ s ∈ validate_steps raw skills, ∃ fs, s = Json.obj fs := by
  intro s hs
  rw [validate_steps_filter_map] at hs
  rcases List.mem_map.mp hs with ⟨t, ht, rfl⟩
  have hk : step_keeps skills t = true := List.of_mem_filter ht
  cases t with
  | obj fs => exact coerce_obj_shape fs
  | str a => simp [step_keeps] at hk
  | num a => simp [step_keeps] at hk
  | bool a => simp [step_keeps] at hk
  | null => simp [step_keeps] at hk
  | arr a => simp [step_keeps] at hk

theorem fallback_all_obj (goal : String) :
    ∀ s ∈ get_fallback_plan goal, ∃ fs, s = Json.obj fs := by
  intro s hs
  unfold get_fallback_plan at hs
  split at hs
  · simp at hs
    rcases hs with h | h
    · exact ⟨_, h⟩
    · exact ⟨_, h⟩
  · simp at hs
    exact ⟨_, hs⟩

theorem execSteps_ok_of_obj (reg : Registry) (goal : String)
    (clock : Nat → String) (m : Nat) :
    ∀ (l : List Json), (∀ s ∈ l, ∃ fs, s = Json.obj fs) →
      ∀ (i cnt : Nat) (mem : MemData),
        ∃ c' m', execSteps reg goal clock m l i cnt mem = Except.ok (c', m') := by
  intro l
  induction l with
  | nil => exact fun _ i cnt mem => ⟨cnt, mem, rfl⟩
  | cons step rest ih =>
    intro hobj i cnt mem
    by_cases h : i > m
    · exact ⟨cnt, mem, by simp [execSteps, h]⟩
    · obtain ⟨fs, rfl⟩ := hobj step (List.mem_cons_self _ _)
      obtain ⟨c', m', hrec⟩ :=
        ih (fun s hs => hobj s (List.mem_cons_of_mem _ hs)) (i + 1)
          (cnt + if (execute_step reg mem goal fs (clock i)).1 then 1 else 0)
          (execute_step reg mem goal fs (clock i)).2
      refine ⟨c', m', ?_⟩
      simp only [execSteps, if_neg h]
      exact hrec

/-- C5: `run_agent` never lets a failure escape.  An unresolved skill or a
raising capability makes `_execute_step` return `false` and store
`"Error: <message>"` for that step; a failed step does not abort the loop
(execution continues with the next index, the success count unchanged);
and on every input `run_agent` terminates with a boolean — either the
empty-plan abort or the success-rate verdict of a completed execution (the
exception path of the loop is never taken for a planner-produced plan). -/
theorem claim_C5_error_containment (reg : Registry) :
    (∀ (mem : MemData) (goal : String) (fs : List (String × Json)) (ts e : String),
      resolve reg (pyGet fs "action") = Except.error e →
      execute_step reg mem goal fs ts
        = (false, Memory.store mem goal fs ("Error: " ++ e) ts))
    ∧ (∀ (mem : MemData) (goal : String) (fs : List (String × Json)) (ts : String)
        (f : Skill) (e : String),
      resolve reg (pyGet fs "action") = Except.ok f →
      f (pyGetD fs "params" (Json.obj [])) = Except.error e →
      execute_step reg mem goal fs ts
        = (false, Memory.store mem goal fs ("Error: " ++ e) ts))
    ∧ (∀ (goal : String) (clock : Nat → String) (m : Nat)
        (fs : List (String × Json)) (rest : List Json) (i cnt : Nat)
        (mem mem' : MemData),
      i ≤ m →
      execute_step reg mem goal fs (clock i) = (false, mem') →
      execSteps reg goal clock m (Json.obj fs :: rest) i cnt mem
        = execSteps reg goal clock m rest (i + 1) cnt mem')
    ∧ (∀ (mem : MemData) (goal : String) (out : Except String (List Json))
        (clock : Nat → String) (m : Nat),
      (agent_plan reg mem goal out = []
        ∧ run_agent reg mem goal out clock m = (false, mem))
      ∨ ∃ cnt mem',
          execSteps reg goal clock m (agent_plan reg mem goal out) 1 0 mem
            = Except.ok (cnt, mem')
          ∧ run_agent reg mem goal out clock m
            = (decide (mkRat 1 2
                < mkRat (cnt : Int) (agent_plan reg mem goal out).length), mem')) := by
  refine ⟨?_, ?_, ?_, ?_⟩
  · intro mem goal fs ts e h
    simp [execute_step, h]
  · intro mem goal fs ts f e hres hf
    simp [execute_step, hres, hf]
  · intro goal clock m fs rest i cnt mem mem' hi hfail
    simp only [execSteps, if_neg (Nat.not_lt.mpr hi), hfail,
      Bool.false_eq_true, if_false, Nat.add_zero]
  · intro mem goal out clock m
    by_cases hp : agent_plan reg mem goal out = []
    · exact Or.inl ⟨hp, by simp [run_agent, hp]⟩
    · right
      have hobj : ∀ s ∈ agent_plan reg mem goal out, ∃ fs, s = Json.obj fs := by
        cases out with
        | ok raw => exact validate_steps_all_obj raw (reg.map Prod.fst)
        | error e => exact fallback_all_obj goal
      obtain ⟨c', m', hok⟩ :=
        execSteps_ok_of_obj reg goal clock m (agent_plan reg mem goal out) hobj 1 0 mem
      refine ⟨c', m', hok, ?_⟩
      have hE := isEmpty_false_of_ne (agent_plan reg mem goal out) hp
      simp [run_agent, hE, hok]

/-- Witness for C5: a capability raising `"kaput"` yields `false` and the
stored error text, applied at a one-skill registry. -/
theorem claim_C5_error_containment_witness :
    execute_step [("boom", fun _ => Except.error "kaput")] [] "g"
        [("action", Json.str "boom"), ("params", Json.obj [])] "t"
      = (false, Memory.store [] "g"
          [("action", Json.str "boom"), ("params", Json.obj [])]
          ("Error: " ++ "kaput") "t") :=
  (claim_C5_error_containment [("boom", fun _ => Except.error "kaput")]).2.1
    [] "g" [("action", Json.str "boom"), ("params", Json.obj [])] "t"
    (fun _ => Except.error "kaput") "kaput" rfl rfl

/-- C10: `resolve` either returns the registered capability of the looked-up
name or raises the `ValueError`; it has no `None` result, so the
`skill_func is None` branch of `_execute_step` is unreachable — the
unresolved-skill case is reported only through the raised error, which
`_execute_step` turns into `false` plus a stored error entry (not into the
store-free silent `false` of that dead branch). -/
theorem claim_C10_resolve_never_none (reg : Registry) (name : Json) :
    ((∃ f, lookupSkill reg name = some f ∧ resolve reg name = Except.ok f)
      ∨ (lookupSkill reg name = none
          ∧ resolve reg name
              = Except.error ("Skill '" ++ pyStr name ++ "' not found in registry")))
    ∧ (∀ (mem : MemData) (goal : String) (fs : List (String × Json)) (ts : String),
        lookupSkill reg (pyGet fs "action") = none →
        execute_step reg mem goal fs ts
          = (false, Memory.store mem goal fs
              ("Error: "
                ++ ("Skill '" ++ pyStr (pyGet fs "action") ++ "' not found in registry"))
              ts)) := by
  constructor
  · cases h : lookupSkill reg name with
    | none => exact Or.inr ⟨rfl, by simp [resolve, h]⟩
    | some f => exact Or.inl ⟨f, rfl, by simp [resolve, h]⟩
  · intro mem goal fs ts h
    simp [execute_step, resolve, h]

/-- Witness for C10: an unregistered action is reported through the raised
error, with the error entry stored. -/
theorem claim_C10_resolve_never_none_witness :
    execute_step [("real", fun _ => Except.ok "r")] [] "g"
        [("action", Json.str "ghost")] "t"
      = (false, Memory.store [] "g" [("action", Json.str "ghost")]
          ("Error: "
            ++ ("Skill '" ++ pyStr (pyGet [("action", Json.str "ghost")] "action")
                ++ "' not found in registry")) "t") :=
  (claim_C10_resolve_never_none [("real", fun _ => Except.ok "r")]
      (Json.str "ghost")).2 [] "g" [("action", Json.str "ghost")] "t" rfl

/-! ## Concrete fixtures for the agent-loop witnesses -/

/-- A two-skill registry: `"ok"` always succeeds, `"bad"` always raises. -/
def wreg : Registry :=
  [("ok", fun _ => Except.ok "fine"), ("bad", fun _ => Except.error "nope")]

/-- A plan step calling `"ok"`. -/
def wstepOk : Json :=
  Json.obj [("action", Json.str "ok"), ("params", Json.obj [])]

/-- A plan step calling `"bad"`. -/
def wstepBad : Json :=
  Json.obj [("action", Json.str "bad"), ("params", Json.obj [])]

/-- The memory entry written by a successful `"ok"` step. -/
def weOk : Entry :=
  ⟨[("action", Json.str "ok"), ("params", Json.obj [])], "fine", "t"⟩

/-- The memory entry written by a failing `"bad"` step. -/
def weBad : Entry :=
  ⟨[("action", Json.str "bad"), ("params", Json.obj [])], "Error: nope", "t"⟩

/-- Witness for C2: a fully executed 4-step plan returns `false` with
exactly 2 successes and `true` with exactly 3. -/
theorem claim_C2_success_majority_witness :
    (run_agent wreg [] "g" (Except.ok [wstepOk, wstepOk, wstepBad, wstepBad])
      (fun _ => "t") 10).1 = false
    ∧ (run_agent wreg [] "g" (Except.ok [wstepOk, wstepOk, wstepOk, wstepBad])
      (fun _ => "t") 10).1 = true := by
  constructor
  · have h := claim_C2_success_majority wreg [] "g"
      (Except.ok [wstepOk, wstepOk, wstepBad, wstepBad]) (fun _ => "t") 10
      [wstepOk, wstepOk, wstepBad, wstepBad] 2
      [("g", [weOk, weOk, weBad, weBad])]
      rfl (List.cons_ne_nil _ _) (by decide) rfl
    rcases Bool.eq_false_or_eq_true
        (run_agent wreg [] "g"
          (Except.ok [wstepOk, wstepOk, wstepBad, wstepBad]) (fun _ => "t") 10).1
      with hb | hb
    · exact absurd (h.mp hb) (by norm_num [wstepOk, wstepBad])
    · exact hb
  · have h := claim_C2_success_majority wreg [] "g"
      (Except.ok [wstepOk, wstepOk, wstepOk, wstepBad]) (fun _ => "t") 10
      [wstepOk, wstepOk, wstepOk, wstepBad] 3
      [("g", [weOk, weOk, weOk, weBad])]
      rfl (List.cons_ne_nil _ _) (by decide) rfl
    exact h.mpr (by norm_num [wstepOk, wstepBad])

/-- Witness for C3: a 4-step plan capped at 3 iterations executes exactly
the first 3 steps (3 memory entries, the fourth step untouched) and still
returns `true` since 3 of 4 planned steps succeeded. -/
theorem claim_C3_iteration_cap_witness :
    run_agent wreg [] "g" (Except.ok [wstepOk, wstepOk, wstepOk, wstepOk])
        (fun _ => "t") 3
      = (true, [("g", [weOk, weOk, weOk])])
    ∧ ([wstepOk, wstepOk, wstepOk, wstepOk].take 3).length = 3 := by
  have h := claim_C3_iteration_cap wreg [] "g"
    (Except.ok [wstepOk, wstepOk, wstepOk, wstepOk]) (fun _ => "t") 3
    [wstepOk, wstepOk, wstepOk, wstepOk] rfl (by decide)
  exact ⟨(h.2.2 3 [("g", [weOk, weOk, weOk])] rfl).trans rfl, h.1⟩
